import Mathlib

/-!
Verification of the plane-tracker core against its natural-language
specification.

The development shallowly embeds the three core modules of the repository:

* the Position Store (`positions-db`: `insertPositions`, `pruneOldPositions`,
  `queryLatestInBbox`, `queryTrail`),
* the Sighting Aggregator (`sightings-db`: `findByIcao`, `upsertSightings`),
* the Tile Poller (`global-poller.ts`: `fetchTile`, `pollOnce` with its
  merge/dedup step and the `isPolling` re-entrancy guard).

Modelling conventions:

* SQLite tables become Lean lists of row structures, in rowid (insertion)
  order; `AUTOINCREMENT` ids are modelled by an explicit `nextId` counter.
* SQL `REAL` and `INTEGER` values are modelled as `Int` (only ordering,
  `MIN`/`MAX` and equality of these fields matter to the claims).
* Nullable SQL columns and optional JavaScript fields become `Option`.
* JavaScript string operations `toLowerCase`/`trim` are modelled on the
  character list of a `String` (`lowerStr`, `trimStr`), and SQLite TEXT
  ordering is modelled as lexicographic order on character codes (`strLe`);
  these are extensionally the library operations, restated so that they
  evaluate by kernel reduction.
* Fallible operations (a rejected `fetch`, a failed SQL statement) return
  `Except String`; `db.transaction` rollback is modelled by returning the
  pre-state when the wrapped computation returns an error.
* `Date.now()` is passed in explicitly as a `now : Int` parameter
  (epoch seconds, already divided and floored as in the source).
-/

/-! ## String helpers (JavaScript and SQLite primitives) -/

/-- Whitespace test used by `trimStr`; covers the characters relevant to
callsign fields (space, tab, newline, carriage return). -/
def isWsChar (c : Char) : Bool :=
  c = ' ' || c = '\t' || c = '\n' || c = '\r'

/-- Model of JavaScript `s.trim()`: drop whitespace from both ends. -/
def trimStr (s : String) : String :=
  String.mk (((s.data.dropWhile isWsChar).reverse.dropWhile isWsChar).reverse)

/-- Model of JavaScript `s.toLowerCase()`: lower-case every character. -/
def lowerStr (s : String) : String :=
  String.mk (s.data.map Char.toLower)

/-- Lexicographic comparison of character lists by character code; this is
SQLite's BINARY collation on the TEXT values appearing here (ASCII hex
identifiers). -/
def lexLe : List Char → List Char → Bool
  | [], _ => true
  | _ :: _, [] => false
  | a :: as, b :: bs =>
    if a.toNat < b.toNat then true
    else if b.toNat < a.toNat then false
    else lexLe as bs

/-- String order used by `ORDER BY p.icao24`. -/
def strLe (s t : String) : Bool := lexLe s.data t.data

/-! ## Position Store (`positions-db`)

The `positions` table (rowid order), its bulk insert, retention prune and
the latest-in-bbox query. -/

/-- One row of the `positions` table. -/
structure PositionRow where
  icao24 : String
  callsign : Option String
  lat : Int
  lon : Int
  alt : Option Int
  speed : Option Int
  heading : Option Int
  vrate : Option Int
  squawk : Option String
  on_ground : Option Int
  ts : Int
deriving DecidableEq, Repr

/-- `insertPositions`: one transaction appending every record (rowid order =
list order). -/
def insertPositions (db : List PositionRow) (positions : List PositionRow) :
    List PositionRow :=
  db ++ positions

/-- `pruneOldPositions`: `DELETE FROM positions WHERE ts < now - maxAgeSeconds`. -/
def pruneOldPositions (now maxAgeSeconds : Int) (db : List PositionRow) :
    List PositionRow :=
  db.filter (fun p => !(decide (p.ts < now - maxAgeSeconds)))

/-- The `WHERE lat BETWEEN ? AND ? AND lon BETWEEN ? AND ? AND ts >= ?`
filter of the inner sub-query of `queryLatestInBbox`. -/
def inBboxWindow (lamin lamax lomin lomax minTs : Int) (p : PositionRow) : Bool :=
  decide (lamin ≤ p.lat) && decide (p.lat ≤ lamax) &&
  decide (lomin ≤ p.lon) && decide (p.lon ≤ lomax) &&
  decide (minTs ≤ p.ts)

/-- Row order for `ORDER BY p.icao24`. -/
def rowLe (a b : PositionRow) : Prop := strLe a.icao24 b.icao24 = true

instance : DecidableRel rowLe := fun a b => by
  unfold rowLe; infer_instance

/-- No two rows of the store share the same `(icao24, ts)` pair. -/
def latestKeyUnique (db : List PositionRow) : Prop :=
  db.Pairwise (fun a b => ¬(a.icao24 = b.icao24 ∧ a.ts = b.ts))

/-- The rows feeding the grouped sub-query of `queryLatestInBbox`. -/
def bboxCands (db : List PositionRow) (lamin lamax lomin lomax minTs : Int) :
    List PositionRow :=
  db.filter (inBboxWindow lamin lamax lomin lomax minTs)

/-- The join condition of `queryLatestInBbox`: row `p` of `positions` joins
the sub-query row `(icao24, MAX(ts))` of its group, i.e. some candidate
shares its key and timestamp and no candidate of its group has a larger
timestamp. -/
def bboxJoinPred (cands : List PositionRow) (p : PositionRow) : Bool :=
  cands.any (fun c => c.icao24 == p.icao24 && c.ts == p.ts) &&
  cands.all (fun c => !(c.icao24 == p.icao24) || decide (c.ts ≤ p.ts))

/-- The join result of `queryLatestInBbox`, before `ORDER BY`. -/
def bboxJoined (db : List PositionRow) (lamin lamax lomin lomax minTs : Int) :
    List PositionRow :=
  db.filter (bboxJoinPred (bboxCands db lamin lamax lomin lomax minTs))

/-- `queryLatestInBbox`: the self-join of `positions` against the grouped
sub-query `SELECT icao24, MAX(ts) … GROUP BY icao24`, then `ORDER BY
p.icao24`. -/
def queryLatestInBbox (db : List PositionRow)
    (lamin lamax lomin lomax : Int) (now : Int) (maxAgeSecs : Int) :
    List PositionRow :=
  List.insertionSort rowLe
    (bboxJoined db lamin lamax lomin lomax (now - maxAgeSecs))

/-- `queryTrail`: all rows of one aircraft since `sinceTs`, `ORDER BY ts ASC`
(stable on ties, following rowid order). -/
def queryTrail (db : List PositionRow) (icao24 : String) (sinceTs : Int) :
    List PositionRow :=
  List.insertionSort (fun a b => a.ts ≤ b.ts)
    (db.filter (fun p => p.icao24 == icao24 && decide (sinceTs ≤ p.ts)))

/-! ## Sighting Aggregator (`sightings-db`)

The `sightings` table, the `findByIcao` lookup and the `upsertSightings`
batch transaction. -/

/-- Input record of `upsertSightings`.  The TypeScript interface declares
`icao24 : string`, but the claims are about JavaScript callers omitting it,
so the embedding keeps it optional; a missing value flows into the SQL
statements as NULL. -/
structure PlaneInput where
  icao24 : Option String
  callsign : Option String
  origin_country : Option String
  alt : Option Int
  vel : Option Int
  lat : Option Int
  lon : Option Int
deriving DecidableEq, Repr

/-- One row of the `sightings` table. -/
structure Sighting where
  id : Nat
  icao24 : String
  callsign : Option String
  origin_country : Option String
  first_seen : Int
  last_seen : Int
  min_alt : Option Int
  max_alt : Option Int
  max_speed : Option Int
  lat : Option Int
  lon : Option Int
deriving DecidableEq, Repr

/-- The `sightings` store: rows in rowid order plus the AUTOINCREMENT
counter. -/
structure SightingsDb where
  rows : List Sighting
  nextId : Nat
deriving DecidableEq, Repr

def emptySightingsDb : SightingsDb := ⟨[], 1⟩

/-- `findByIcao`: `SELECT … WHERE icao24 = ? AND last_seen > ? ORDER BY
last_seen DESC LIMIT 1`.  A NULL bound parameter (`icao = none`) matches no
row, per SQL comparison semantics.  Among equal `last_seen` values the
earliest row wins, following SQLite's stable scan order. -/
def findByIcao (icao : Option String) (thr : Int) : List Sighting → Option Sighting
  | [] => none
  | r :: rest =>
    if icao == some r.icao24 && decide (thr < r.last_seen) then
      match findByIcao icao thr rest with
      | none => some r
      | some b => if decide (r.last_seen < b.last_seen) then some b else some r
    else findByIcao icao thr rest

/-- JavaScript `(plane.callsign || '').trim() || null`. -/
def normCallsign (cs : Option String) : Option String :=
  let t := trimStr (cs.getD "")
  if t = "" then none else some t

/-- JavaScript `plane.origin_country || null`. -/
def normCountry (oc : Option String) : Option String :=
  match oc with
  | none => none
  | some s => if s = "" then none else some s

/-- `updateStmt`: `UPDATE sightings SET last_seen = ?, callsign =
COALESCE(?, callsign), min_alt = ?, max_alt = ?, max_speed = ?, lat = ?,
lon = ? WHERE id = ?`. -/
def applyUpdate (rows : List Sighting) (target : Nat) (now : Int)
    (cs : Option String) (minAlt maxAlt maxSpeed latv lonv : Option Int) :
    List Sighting :=
  rows.map (fun r =>
    if r.id = target then
      { r with
        last_seen := now
        callsign := match cs with | some s => some s | none => r.callsign
        min_alt := minAlt
        max_alt := maxAlt
        max_speed := maxSpeed
        lat := latv
        lon := lonv }
    else r)

/-- `upsertStmt`: `INSERT INTO sightings … VALUES (?, …)`.  Inserting NULL
into the `icao24 TEXT NOT NULL` column throws; the id comes from
AUTOINCREMENT, so `ON CONFLICT(id) DO NOTHING` never fires. -/
def runInsert (dbst : SightingsDb) (icao : Option String)
    (cs oc : Option String) (now : Int) (altv velv latv lonv : Option Int) :
    Except String SightingsDb :=
  match icao with
  | none => .error "NOT NULL constraint failed: sightings.icao24"
  | some i =>
    .ok { rows := dbst.rows ++
            [{ id := dbst.nextId, icao24 := i, callsign := cs,
               origin_country := oc, first_seen := now, last_seen := now,
               min_alt := altv, max_alt := altv, max_speed := velv,
               lat := latv, lon := lonv }]
          nextId := dbst.nextId + 1 }

/-- The running-minimum ternary of the update path: `plane.alt != null ?
(existing.min_alt != null ? Math.min(existing.min_alt, plane.alt) :
plane.alt) : existing.min_alt`. -/
def mergeMin (old v : Option Int) : Option Int :=
  match v with
  | some a => some (match old with | some m => min m a | none => a)
  | none => old

/-- The running-maximum ternary of the update path (used for both
`max_alt` and `max_speed`). -/
def mergeMax (old v : Option Int) : Option Int :=
  match v with
  | some a => some (match old with | some m => max m a | none => a)
  | none => old

/-- Body of the `for (const plane of planes)` loop of `upsertSightings`:
look up an active episode and either update its running aggregates or
insert a fresh episode. -/
def upsertOne (now : Int) (dbst : SightingsDb) (plane : PlaneInput) :
    Except String SightingsDb :=
  let staleThreshold := now - 600
  match findByIcao plane.icao24 staleThreshold dbst.rows with
  | some existing =>
    let minAlt := mergeMin existing.min_alt plane.alt
    let maxAlt := mergeMax existing.max_alt plane.alt
    let maxSpeed := mergeMax existing.max_speed plane.vel
    .ok { dbst with
          rows := applyUpdate dbst.rows existing.id now
            (normCallsign plane.callsign) minAlt maxAlt maxSpeed
            plane.lat plane.lon }
  | none =>
    runInsert dbst plane.icao24 (normCallsign plane.callsign)
      (normCountry plane.origin_country) now plane.alt plane.vel
      plane.lat plane.lon

/-- The loop over the batch, inside the transaction: the first failing
statement aborts the rest. -/
def upsertLoop (now : Int) (planes : List PlaneInput) (dbst : SightingsDb) :
    Except String SightingsDb :=
  match planes with
  | [] => .ok dbst
  | p :: rest =>
    match upsertOne now dbst p with
    | .error e => .error e
    | .ok dbst2 => upsertLoop now rest dbst2

/-- `upsertSightings`: the batch runs inside `db.transaction(…)`; on success
the new state commits, on a thrown statement error the transaction rolls
back (pre-state kept) and the error is rethrown to the caller (returned in
the second component). -/
def upsertSightings (now : Int) (planes : List PlaneInput) (dbst : SightingsDb) :
    SightingsDb × Option String :=
  match upsertLoop now planes dbst with
  | .ok dbst2 => (dbst2, none)
  | .error e => (dbst, some e)

/-! ## Tile Poller (`global-poller.ts`)

The source client `fetchTile`, the merge/dedup step of `pollOnce`, the
whole-cycle body with its `try/catch/finally`, and a small event model of
the re-entrancy guard. -/

/-- One raw aircraft object from a tile response (the fields `pollOnce`
reads). -/
structure RawAc where
  hex : Option String
  flight : Option String
  lat : Option Int
  lon : Option Int
  alt_baro : Option Int
  alt_geom : Option Int
  gs : Option Int
  track : Option Int
  baro_rate : Option Int
  geom_rate : Option Int
  squawk : Option String
deriving DecidableEq, Repr

deriving instance DecidableEq for Except

/-- What the environment does with one `fetch` of a tile: the promise
rejects (network error or the 15s `AbortSignal.timeout` firing), or a
response arrives with a success flag, an HTTP status and a body whose JSON
either fails to parse or yields an object with an optional `ac` array. -/
inductive FetchOutcome where
  | netError (msg : String)
  | response (ok : Bool) (status : Nat) (json : Except String (Option (List RawAc)))
deriving DecidableEq, Repr

/-- `fetchTile`: `await fetch(url, …)` rethrows a rejection to the caller;
a non-ok response logs and returns `[]`; otherwise `await res.json()` may
rethrow, and `data.ac || []` defaults a missing array. -/
def fetchTile (o : FetchOutcome) : Except String (List RawAc) :=
  match o with
  | .netError m => .error m
  | .response ok _status json =>
    if ok = false then .ok []
    else
      match json with
      | .error m => .error m
      | .ok data => .ok (data.getD [])

/-- JavaScript truthiness of `ac.hex` (`!ac.hex` skips `undefined`, `null`
and the empty string). -/
def hexFalsy (h : Option String) : Bool :=
  match h with
  | none => true
  | some s => s = ""

/-- The lower-cased identity key of a kept observation. -/
def keyOf (ac : RawAc) : String := lowerStr (ac.hex.getD "")

/-- The validity guard of the merge loop: `if (!ac.hex || ac.lat == null
|| ac.lon == null) continue`. -/
def validAc (ac : RawAc) : Bool :=
  !(hexFalsy ac.hex) && !(ac.lat == none) && !(ac.lon == none)

/-- One iteration of the inner merge loop over a `seen` map (modelled as an
association list in insertion order): keep the observation only when it is
valid and its key is new. -/
def addAc (seen : List (String × RawAc)) (ac : RawAc) : List (String × RawAc) :=
  if !(validAc ac) then seen
  else
    let icao24 := keyOf ac
    if seen.any (fun kv => kv.1 == icao24) then seen
    else seen ++ [(icao24, ac)]

/-- The dedup pass of `pollOnce` over the settled per-tile results
(`Promise.allSettled` keeps configured tile order): rejected tiles are
skipped, fulfilled tiles contribute their observations in order. -/
def mergeResults (results : List (Except String (List RawAc))) :
    List (String × RawAc) :=
  results.foldl
    (fun seen r =>
      match r with
      | .error _ => seen
      | .ok acs => acs.foldl addAc seen)
    []

/-- First-fallback coalescing `a ?? b` for the altitude and vertical-rate
fields. -/
def coalesceOpt (a b : Option Int) : Option Int :=
  match a with
  | some x => some x
  | none => b

/-- Building one `PositionRow` from a kept observation, as in the
`positions.push({...})` literal of `pollOnce`. -/
def toPositionRow (ts : Int) (icao24 : String) (ac : RawAc) : PositionRow :=
  { icao24 := icao24
    callsign :=
      match ac.flight with
      | none => none
      | some f => if trimStr f = "" then none else some (trimStr f)
    lat := ac.lat.getD 0
    lon := ac.lon.getD 0
    alt := coalesceOpt ac.alt_baro ac.alt_geom
    speed := ac.gs
    heading := ac.track
    vrate := coalesceOpt ac.baro_rate ac.geom_rate
    squawk := ac.squawk
    on_ground := some (match ac.gs with
      | some g => if g < 5 then 1 else 0
      | none => 0)
    ts := ts }

/-- The merged batch of one poll cycle, in map-insertion order, stamped with
the single cycle timestamp. -/
def cycleBatch (results : List (Except String (List RawAc))) (ts : Int) :
    List PositionRow :=
  (mergeResults results).map (fun kv => toPositionRow ts kv.1 kv.2)

/-- Everything the environment decides for one poll cycle: the settled
fetch results in configured tile order, the cycle timestamp, and whether
the two store writes throw. -/
structure CycleInput where
  results : List (Except String (List RawAc))
  ts : Int
  insertFault : Option String
  pruneFault : Option String
deriving DecidableEq, Repr

/-- 24h retention used by the poller. -/
def RETENTION_SECONDS : Int := 24 * 3600

/-- The `try` body of `pollOnce` acting on the positions store: merge, then
`insertPositions` when the batch is non-empty (its transaction leaves the
store untouched when it throws), then `pruneOldPositions` (whose failure
leaves the insert committed).  Returns the resulting store and the error
reaching the `catch`, if any. -/
def runBody (inp : CycleInput) (db : List PositionRow) :
    List PositionRow × Option String :=
  let batch := cycleBatch inp.results inp.ts
  let afterInsert :=
    if batch.length ≠ 0 then
      match inp.insertFault with
      | some _ => none
      | none => some (insertPositions db batch)
    else some db
  match afterInsert with
  | none => (db, inp.insertFault)
  | some db1 =>
    match inp.pruneFault with
    | some e => (db1, some e)
    | none => (pruneOldPositions inp.ts RETENTION_SECONDS db1, none)

/-- Poller state visible across invocations of `pollOnce`: the in-flight
flag, the positions store, and a count of the skip log lines (observable
trace of the guard firing). -/
structure PollState where
  isPolling : Bool
  db : List PositionRow
  skips : Nat
deriving DecidableEq, Repr

/-- One complete invocation of `pollOnce`, from guard check to return: when
the flag is up the call only logs a skip; otherwise the flag goes up, the
body runs (the `catch` absorbs its error), and the `finally` lowers the
flag on every path. -/
def pollOnce (s : PollState) (inp : CycleInput) : PollState :=
  if s.isPolling then { s with skips := s.skips + 1 }
  else
    let r := runBody inp s.db
    { isPolling := false, db := r.1, skips := s.skips }

/-! ### Event model of the re-entrancy guard

`pollOnce` is `async`: it checks and raises `isPolling` synchronously, then
suspends on the tile fetches, and only lowers the flag when the body
settles.  Invocations by the timer interleave with at most these two kinds
of events, since the JavaScript runtime is single-threaded: a call of
`pollOnce` (which either skips or starts a cycle) and the completion of the
in-flight cycle (body plus `catch`/`finally`). -/

inductive PollEv where
  | invoke (inp : CycleInput)
  | finish
deriving DecidableEq, Repr

/-- Scheduler-level state: the in-flight cycle with its input (present iff
`isPolling` is true), the store, the skip count, and a running-cycle
counter used to state the mutual-exclusion property. -/
structure TraceState where
  pending : Option CycleInput
  db : List PositionRow
  skips : Nat
  running : Nat
deriving DecidableEq, Repr

def initTraceState : TraceState :=
  { pending := none, db := [], skips := 0, running := 0 }

/-- One scheduler event.  An `invoke` while a cycle is pending only logs the
skip; an `invoke` while idle starts a cycle.  A `finish` settles the pending
cycle: the body's effects land on the store, the error (if any) is absorbed
by the `catch`, and the `finally` clears the flag. -/
def stepEv (s : TraceState) : PollEv → TraceState
  | .invoke inp =>
    match s.pending with
    | some _ => { s with skips := s.skips + 1 }
    | none => { s with pending := some inp, running := s.running + 1 }
  | .finish =>
    match s.pending with
    | none => s
    | some inp =>
      let r := runBody inp s.db
      { pending := none, db := r.1, skips := s.skips, running := s.running - 1 }

/-- A whole scheduler trace. -/
def runTrace (s : TraceState) (evs : List PollEv) : TraceState :=
  evs.foldl stepEv s

/-! ## Predicates used to state the claims -/

/-- The rows of `sightings` that `findByIcao i (now - 600)` ranges over: an
episode of aircraft `i` counts as active at `now` when `last_seen > now -
600`. -/
def activeFor (i : String) (now : Int) (r : Sighting) : Bool :=
  r.icao24 == i && decide (now - 600 < r.last_seen)

/-- At most one active episode per aircraft. -/
def atMostOneActive (dbst : SightingsDb) (now : Int) : Prop :=
  ∀ i : String, (dbst.rows.filter (activeFor i now)).length ≤ 1

/-- Well-formedness the SQLite engine guarantees for `sightings`: ids are
below the AUTOINCREMENT counter and pairwise distinct (`id INTEGER PRIMARY
KEY`). -/
def wfDb (dbst : SightingsDb) : Prop :=
  (∀ r ∈ dbst.rows, r.id < dbst.nextId) ∧
  (dbst.rows.map (fun r => r.id)).Nodup

/-- The altitude-bounds invariant of one episode row. -/
def altInv (r : Sighting) : Prop :=
  ∀ m M : Int, r.min_alt = some m → r.max_alt = some M → m ≤ M

/-- The observations of the fulfilled tiles of one cycle, flattened in
configured tile order: the sequence the merge loop of `pollOnce` walks. -/
def tileObservations (results : List (Except String (List RawAc))) : List RawAc :=
  results.foldr
    (fun r acc =>
      match r with
      | .error _ => acc
      | .ok acs => acs ++ acc)
    []

/-- The valid observations of one cycle, keyed by lower-cased identity, in
the order the merge loop meets them. -/
def keyedValid (results : List (Except String (List RawAc))) :
    List (String × RawAc) :=
  ((tileObservations results).filter validAc).map (fun ac => (keyOf ac, ac))

/-- The keyed form of one merge-loop step: keep the pair only when its key
is new. -/
def addPair (seen : List (String × RawAc)) (kv : String × RawAc) :
    List (String × RawAc) :=
  if seen.any (fun x => x.1 == kv.1) then seen else seen ++ [kv]

/-! ## Concrete sample inputs used by witnesses -/

/-- A position inside the box `[0,10] × [0,10]` at timestamp 100. -/
def sampleRow : PositionRow :=
  ⟨"abc", none, 5, 5, none, none, none, none, none, none, 100⟩

/-- A well-formed observation of aircraft `abc`. -/
def samplePlane : PlaneInput :=
  ⟨some "abc", none, none, some 1000, none, some 1, some 2⟩

/-- An observation with a missing aircraft identity. -/
def sampleBadPlane : PlaneInput :=
  ⟨none, none, none, none, none, none, none⟩

/-- A raw tile observation with identity and position present. -/
def sampleAc : RawAc :=
  ⟨some "ABC", some " UAL1 ", some 10, some 20, some 30000, none, some 400,
   none, none, none, none⟩

/-- An episode of aircraft `abc` last seen at t=1000. -/
def sampleEpisode : Sighting :=
  ⟨1, "abc", none, none, 1000, 1000, some 1000, some 1000, none, some 1, some 2⟩

/-- A sightings store holding only `sampleEpisode`. -/
def sampleDb1 : SightingsDb := ⟨[sampleEpisode], 2⟩

/-- A second observation of aircraft `abc` carrying altitude, speed and an
untrimmed callsign. -/
def samplePlane2 : PlaneInput :=
  ⟨some "abc", some " UA1 ", none, some 500, some 50, none, some 7⟩

/-! ## General lemmas on the string order -/

theorem lexLe_total : ∀ as bs : List Char, lexLe as bs = true ∨ lexLe bs as = true
  | [], _ => Or.inl rfl
  | _ :: _, [] => Or.inr rfl
  | a :: as, b :: bs => by
    rcases Nat.lt_trichotomy a.toNat b.toNat with h | h | h
    · exact Or.inl (by simp [lexLe, h])
    · have := lexLe_total as bs
      rcases this with h2 | h2
      · exact Or.inl (by simp [lexLe, h, Nat.lt_irrefl, h2])
      · exact Or.inr (by simp [lexLe, h, Nat.lt_irrefl, h2])
    · exact Or.inr (by simp [lexLe, h])

theorem lexLe_trans : ∀ as bs cs : List Char,
    lexLe as bs = true → lexLe bs cs = true → lexLe as cs = true
  | [], _, _, _, _ => rfl
  | _ :: _, [], _, h, _ => by simp [lexLe] at h
  | _ :: _, _ :: _, [], _, h => by simp [lexLe] at h
  | a :: as, b :: bs, c :: cs, h1, h2 => by
    simp only [lexLe] at h1 h2 ⊢
    split_ifs at h1 h2 ⊢ with g1 g2 g3 g4 g5 g6 <;>
      first
        | rfl
        | omega
        | (exact lexLe_trans as bs cs h1 h2)

/-! ## Claim C1 — latest-per-aircraft bounding-box query -/

theorem latestKeyUnique_symm :
    Symmetric (fun a b : PositionRow => ¬(a.icao24 = b.icao24 ∧ a.ts = b.ts)) := by
  intro a b h hab
  exact h ⟨hab.1.symm, hab.2.symm⟩

theorem eq_of_latestKeyUnique {db : List PositionRow} (hu : latestKeyUnique db)
    {a b : PositionRow} (ha : a ∈ db) (hb : b ∈ db)
    (h1 : a.icao24 = b.icao24) (h2 : a.ts = b.ts) : a = b := by
  by_contra hne
  exact (hu.forall latestKeyUnique_symm) ha hb hne ⟨h1, h2⟩

theorem mem_bboxCands {db : List PositionRow} {lamin lamax lomin lomax minTs : Int}
    {p : PositionRow} :
    p ∈ bboxCands db lamin lamax lomin lomax minTs ↔
      p ∈ db ∧ inBboxWindow lamin lamax lomin lomax minTs p = true :=
  List.mem_filter

theorem mem_bboxJoined {db : List PositionRow} {lamin lamax lomin lomax minTs : Int}
    {p : PositionRow} :
    p ∈ bboxJoined db lamin lamax lomin lomax minTs ↔
      p ∈ db ∧
      (∃ c ∈ bboxCands db lamin lamax lomin lomax minTs,
        c.icao24 = p.icao24 ∧ c.ts = p.ts) ∧
      (∀ c ∈ bboxCands db lamin lamax lomin lomax minTs,
        c.icao24 = p.icao24 → c.ts ≤ p.ts) := by
  simp only [bboxJoined, List.mem_filter, bboxJoinPred, Bool.and_eq_true,
    List.any_eq_true, List.all_eq_true, Bool.or_eq_true, Bool.not_eq_true',
    beq_iff_eq, decide_eq_true_eq, beq_eq_false_iff_ne, ne_eq, and_assoc]
  constructor
  · rintro ⟨h1, h2, h3⟩
    refine ⟨h1, h2, ?_⟩
    intro c hc hck
    rcases h3 c hc with h | h
    · exact absurd hck h
    · exact h
  · rintro ⟨h1, h2, h3⟩
    refine ⟨h1, h2, ?_⟩
    intro c hc
    by_cases he : c.icao24 = p.icao24
    · exact Or.inr (h3 c hc he)
    · exact Or.inl he

theorem exists_max_ts : ∀ l : List PositionRow, l ≠ [] →
    ∃ m, m ∈ l ∧ ∀ x ∈ l, x.ts ≤ m.ts := by
  intro l
  induction l with
  | nil => intro h; exact absurd rfl h
  | cons a t ih =>
    intro _
    by_cases ht : t = []
    · subst ht
      refine ⟨a, by simp, ?_⟩
      intro x hx
      have : x = a := by simpa using hx
      simp [this]
    · obtain ⟨m, hm, hmax⟩ := ih ht
      by_cases hc : m.ts ≤ a.ts
      · refine ⟨a, by simp, ?_⟩
        intro x hx
        rcases List.mem_cons.mp hx with rfl | hx
        · exact le_refl _
        · exact le_trans (hmax x hx) hc
      · refine ⟨m, List.mem_cons_of_mem _ hm, ?_⟩
        intro x hx
        rcases List.mem_cons.mp hx with rfl | hx
        · omega
        · exact hmax x hx

theorem length_le_one_of_pairwise {α : Type _} (l : List α) (R : α → α → Prop)
    (hp : l.Pairwise R) (h : ∀ a ∈ l, ∀ b ∈ l, ¬ R a b) : l.length ≤ 1 := by
  match l with
  | [] => simp
  | [a] => simp
  | a :: b :: t =>
    exfalso
    have hR : R a b := (List.pairwise_cons.mp hp).1 b (by simp)
    exact h a (by simp) b (by simp) hR

/-- C1 counterexample.  The claim promises exactly one record per aircraft
with ties on the maximum timestamp broken deterministically; the SQL join
instead returns every row whose `(icao24, ts)` matches the group maximum.
Two rows of aircraft `aaa` at the same timestamp, both inside the box and
window, both come back. -/
theorem queryLatestInBbox_duplicate_timestamp_cex :
    List.countP (fun r => r.icao24 == "aaa")
      (queryLatestInBbox
        [{ icao24 := "aaa", callsign := none, lat := 5, lon := 5, alt := none,
           speed := none, heading := none, vrate := none, squawk := none,
           on_ground := none, ts := 100 },
         { icao24 := "aaa", callsign := some "X", lat := 6, lon := 6, alt := none,
           speed := none, heading := none, vrate := none, squawk := none,
           on_ground := none, ts := 100 }]
        0 10 0 10 100 180) = 2 := by decide

/-- C1 (amended): provided no two rows share an `(icao24, ts)` pair — the
condition the tie-breaking language of the claim presupposes — the query
returns, for each aircraft with at least one record inside the box observed
within `maxAgeSecs` of now, exactly one record; every returned record lies
inside the box and window and carries the maximum timestamp among that
aircraft's in-box in-window records; and the result is sorted by aircraft
identity. -/
theorem queryLatestInBbox_latest_per_aircraft
    (db : List PositionRow) (lamin lamax lomin lomax now maxAgeSecs : Int)
    (hu : latestKeyUnique db) :
    List.Sorted rowLe (queryLatestInBbox db lamin lamax lomin lomax now maxAgeSecs) ∧
    (∀ i : String,
      (∃ q ∈ db, inBboxWindow lamin lamax lomin lomax (now - maxAgeSecs) q = true ∧
        q.icao24 = i) →
      List.countP (fun r => r.icao24 == i)
        (queryLatestInBbox db lamin lamax lomin lomax now maxAgeSecs) = 1) ∧
    (∀ r ∈ queryLatestInBbox db lamin lamax lomin lomax now maxAgeSecs,
      r ∈ db ∧ inBboxWindow lamin lamax lomin lomax (now - maxAgeSecs) r = true ∧
      (∀ q ∈ db, q.icao24 = r.icao24 →
        inBboxWindow lamin lamax lomin lomax (now - maxAgeSecs) q = true →
        q.ts ≤ r.ts)) := by
  have hperm : (queryLatestInBbox db lamin lamax lomin lomax now maxAgeSecs).Perm
      (bboxJoined db lamin lamax lomin lomax (now - maxAgeSecs)) :=
    List.perm_insertionSort rowLe _
  refine ⟨?_, ?_, ?_⟩
  · haveI : IsTotal PositionRow rowLe :=
      ⟨fun a b => lexLe_total a.icao24.data b.icao24.data⟩
    haveI : IsTrans PositionRow rowLe :=
      ⟨fun a b c => lexLe_trans a.icao24.data b.icao24.data c.icao24.data⟩
    exact List.sorted_insertionSort rowLe _
  · rintro i ⟨q, hq, hqbox, hqkey⟩
    rw [hperm.countP_eq, List.countP_eq_length_filter]
    have hsubdb : (bboxJoined db lamin lamax lomin lomax (now - maxAgeSecs)).Sublist db :=
      List.filter_sublist db
    have hfsub : ((bboxJoined db lamin lamax lomin lomax (now - maxAgeSecs)).filter
        (fun r => r.icao24 == i)).Sublist db :=
      (List.filter_sublist _).trans hsubdb
    have hpf := List.Pairwise.sublist hfsub hu
    have hqc : q ∈ bboxCands db lamin lamax lomin lomax (now - maxAgeSecs) :=
      mem_bboxCands.mpr ⟨hq, hqbox⟩
    have hqG : q ∈ (bboxCands db lamin lamax lomin lomax (now - maxAgeSecs)).filter
        (fun c => c.icao24 == i) :=
      List.mem_filter.mpr ⟨hqc, by simp [hqkey]⟩
    obtain ⟨m, hmG, hmax⟩ := exists_max_ts _ (List.ne_nil_of_mem hqG)
    have hmc : m ∈ bboxCands db lamin lamax lomin lomax (now - maxAgeSecs) :=
      (List.mem_filter.mp hmG).1
    have hmkey : m.icao24 = i := by
      have := (List.mem_filter.mp hmG).2
      simpa using this
    have hmj : m ∈ bboxJoined db lamin lamax lomin lomax (now - maxAgeSecs) := by
      refine mem_bboxJoined.mpr ⟨(mem_bboxCands.mp hmc).1, ⟨m, hmc, rfl, rfl⟩, ?_⟩
      intro c hc hck
      exact hmax c (List.mem_filter.mpr ⟨hc, by simp [hck, hmkey]⟩)
    have hmem : m ∈ (bboxJoined db lamin lamax lomin lomax (now - maxAgeSecs)).filter
        (fun r => r.icao24 == i) :=
      List.mem_filter.mpr ⟨hmj, by simp [hmkey]⟩
    have hsame : ∀ a ∈ (bboxJoined db lamin lamax lomin lomax (now - maxAgeSecs)).filter
          (fun r => r.icao24 == i),
        ∀ b ∈ (bboxJoined db lamin lamax lomin lomax (now - maxAgeSecs)).filter
          (fun r => r.icao24 == i),
        a.icao24 = b.icao24 ∧ a.ts = b.ts := by
      intro a ha b hb
      obtain ⟨haj, hak⟩ := List.mem_filter.mp ha
      obtain ⟨hbj, hbk⟩ := List.mem_filter.mp hb
      have hak2 : a.icao24 = i := by simpa using hak
      have hbk2 : b.icao24 = i := by simpa using hbk
      obtain ⟨-, ⟨ca, hca, hcak, hcat⟩, -⟩ := mem_bboxJoined.mp haj
      obtain ⟨-, ⟨cb, hcb, hcbk, hcbt⟩, -⟩ := mem_bboxJoined.mp hbj
      obtain ⟨-, -, haall⟩ := mem_bboxJoined.mp haj
      obtain ⟨-, -, hball⟩ := mem_bboxJoined.mp hbj
      have h1 : a.ts ≤ b.ts := by
        have := hball ca hca (by rw [hcak, hak2, hbk2])
        omega
      have h2 : b.ts ≤ a.ts := by
        have := haall cb hcb (by rw [hcbk, hbk2, hak2])
        omega
      exact ⟨by rw [hak2, hbk2], le_antisymm h1 h2⟩
    have hle := length_le_one_of_pairwise _ _ hpf
      (fun a ha b hb hR => hR (hsame a ha b hb))
    have hpos := List.length_pos.mpr (List.ne_nil_of_mem hmem)
    omega
  · intro r hr
    have hrj : r ∈ bboxJoined db lamin lamax lomin lomax (now - maxAgeSecs) :=
      hperm.mem_iff.mp hr
    obtain ⟨hrdb, ⟨c, hc, hck, hct⟩, hrall⟩ := mem_bboxJoined.mp hrj
    have hcdb : c ∈ db := (mem_bboxCands.mp hc).1
    have hceq : c = r := eq_of_latestKeyUnique hu hcdb hrdb hck hct
    have hrbox : inBboxWindow lamin lamax lomin lomax (now - maxAgeSecs) r = true := by
      have := (mem_bboxCands.mp hc).2
      rwa [hceq] at this
    refine ⟨hrdb, hrbox, ?_⟩
    intro q hq hqk hqbox
    exact hrall q (mem_bboxCands.mpr ⟨hq, hqbox⟩) hqk

/-- C1 witness: the amended theorem applied to a one-row store whose row
lies inside the box and window. -/
theorem queryLatestInBbox_latest_per_aircraft_witness :
    latestKeyUnique [sampleRow] ∧
    (List.Sorted rowLe (queryLatestInBbox [sampleRow] 0 10 0 10 100 180) ∧
     (∀ i : String,
       (∃ q ∈ [sampleRow], inBboxWindow 0 10 0 10 (100 - 180) q = true ∧
         q.icao24 = i) →
       List.countP (fun r => r.icao24 == i)
         (queryLatestInBbox [sampleRow] 0 10 0 10 100 180) = 1) ∧
     (∀ r ∈ queryLatestInBbox [sampleRow] 0 10 0 10 100 180,
       r ∈ [sampleRow] ∧ inBboxWindow 0 10 0 10 (100 - 180) r = true ∧
       (∀ q ∈ [sampleRow], q.icao24 = r.icao24 →
         inBboxWindow 0 10 0 10 (100 - 180) q = true → q.ts ≤ r.ts))) :=
  ⟨by simp [latestKeyUnique],
   queryLatestInBbox_latest_per_aircraft [sampleRow] 0 10 0 10 100 180
     (by simp [latestKeyUnique])⟩

/-! ## Claims C2 and C8 — batch behaviour of `upsertSightings` -/

theorem findByIcao_none_param (thr : Int) :
    ∀ rows : List Sighting, findByIcao none thr rows = none := by
  intro rows
  induction rows with
  | nil => rfl
  | cons r rest ih => simp [findByIcao, ih]

theorem upsertLoop_error_of_missing (now : Int) :
    ∀ (planes : List PlaneInput) (dbst : SightingsDb),
      (∃ p ∈ planes, p.icao24 = none) →
      upsertLoop now planes dbst =
        .error "NOT NULL constraint failed: sightings.icao24" := by
  intro planes
  induction planes with
  | nil => rintro dbst ⟨p, hp, -⟩; exact absurd hp (List.not_mem_nil p)
  | cons q rest ih =>
    rintro dbst ⟨p, hp, hpnone⟩
    rcases List.mem_cons.mp hp with rfl | hp2
    · simp [upsertLoop, upsertOne, hpnone, findByIcao_none_param, runInsert]
    · by_cases hq : q.icao24 = none
      · simp [upsertLoop, upsertOne, hq, findByIcao_none_param, runInsert]
      · simp only [upsertLoop]
        cases h : upsertOne now dbst q with
        | error e =>
          exfalso
          rcases hq2 : q.icao24 with _ | i
          · exact hq hq2
          · simp only [upsertOne, hq2] at h
            cases hf : findByIcao (some i) (now - 600) dbst.rows with
            | some ex => rw [hf] at h; simp at h
            | none => rw [hf] at h; simp [runInsert] at h
        | ok dbst2 => exact ih dbst2 ⟨p, hp2, hpnone⟩

/-- C2 counterexample.  The claim says a record with a missing identity is
skipped on its own while the rest of the batch is still processed.  On the
code, the missing identity reaches the NOT NULL `icao24` column, the insert
throws, and the surrounding transaction rolls the whole batch back: after
upserting `[samplePlane, sampleBadPlane]` into an empty store the store is
still empty (the valid record was not processed) and the error surfaced. -/
theorem upsertSightings_missing_icao24_cex :
    (upsertSightings 1000 [samplePlane, sampleBadPlane] emptySightingsDb).1.rows
      = [] ∧
    (upsertSightings 1000 [samplePlane, sampleBadPlane] emptySightingsDb).2
      = some "NOT NULL constraint failed: sightings.icao24" := by decide

/-- C2 (amended): a batch containing a record with a missing aircraft
identity fails as a whole — the NOT NULL insert throws, the transaction
rolls back, the store is left unchanged and the error propagates to the
caller; no record of the batch takes effect. -/
theorem upsertSightings_missing_icao24_fails_batch
    (now : Int) (planes : List PlaneInput) (dbst : SightingsDb)
    (h : ∃ p ∈ planes, p.icao24 = none) :
    upsertSightings now planes dbst =
      (dbst, some "NOT NULL constraint failed: sightings.icao24") := by
  unfold upsertSightings
  rw [upsertLoop_error_of_missing now planes dbst h]

/-- C2 witness: a singleton batch with the identity missing. -/
theorem upsertSightings_missing_icao24_fails_batch_witness :
    (∃ p ∈ [sampleBadPlane], p.icao24 = none) ∧
    upsertSightings 0 [sampleBadPlane] emptySightingsDb =
      (emptySightingsDb, some "NOT NULL constraint failed: sightings.icao24") :=
  ⟨⟨sampleBadPlane, by simp, rfl⟩,
   upsertSightings_missing_icao24_fails_batch 0 [sampleBadPlane]
     emptySightingsDb ⟨sampleBadPlane, by simp, rfl⟩⟩

theorem upsertLoop_append (now : Int) :
    ∀ (l1 l2 : List PlaneInput) (dbst : SightingsDb),
      upsertLoop now (l1 ++ l2) dbst =
        match upsertLoop now l1 dbst with
        | .error e => .error e
        | .ok d2 => upsertLoop now l2 d2 := by
  intro l1
  induction l1 with
  | nil => intro l2 dbst; rfl
  | cons p rest ih =>
    intro l2 dbst
    simp only [List.cons_append, upsertLoop]
    cases upsertOne now dbst p with
    | error e => rfl
    | ok d2 => exact ih l2 d2

/-- C8: the batch is processed inside one transaction, all-or-nothing.
Even when a prefix of the batch has already executed its statements
(carrying the store from `dbst` to `dbst2` inside the transaction), a later
record that throws — here a missing identity hitting the NOT NULL `icao24`
column — rolls the whole batch back: the observable store is the original
`dbst` and the error is rethrown to the caller. -/
theorem upsertSightings_batch_atomic
    (now : Int) (pre post : List PlaneInput) (bad : PlaneInput)
    (dbst dbst2 : SightingsDb)
    (hpre : upsertLoop now pre dbst = .ok dbst2)
    (hbad : bad.icao24 = none) :
    upsertSightings now (pre ++ bad :: post) dbst =
      (dbst, some "NOT NULL constraint failed: sightings.icao24") := by
  unfold upsertSightings
  rw [upsertLoop_append now pre (bad :: post) dbst, hpre]
  simp only [upsertLoop_error_of_missing now (bad :: post) dbst2
    ⟨bad, List.mem_cons_self bad post, hbad⟩]

/-- C8 witness: a valid record writes an episode inside the transaction,
then the bad record aborts; the observable store is unchanged. -/
theorem upsertSightings_batch_atomic_witness :
    (upsertLoop 1000 [samplePlane] emptySightingsDb =
      .ok ⟨[⟨1, "abc", none, none, 1000, 1000, some 1000, some 1000, none,
             some 1, some 2⟩], 2⟩) ∧
    sampleBadPlane.icao24 = none ∧
    upsertSightings 1000 ([samplePlane] ++ sampleBadPlane :: []) emptySightingsDb =
      (emptySightingsDb, some "NOT NULL constraint failed: sightings.icao24") :=
  ⟨by decide, rfl,
   upsertSightings_batch_atomic 1000 [samplePlane] [] sampleBadPlane
     emptySightingsDb
     ⟨[⟨1, "abc", none, none, 1000, 1000, some 1000, some 1000, none,
        some 1, some 2⟩], 2⟩
     (by decide) rfl⟩

/-! ## Claims C5, C6, C9 — episode lifecycle and running aggregates -/

theorem mem_of_length_le_one {α : Type _} {l : List α} (h : l.length ≤ 1)
    {a b : α} (ha : a ∈ l) (hb : b ∈ l) : a = b := by
  match l with
  | [] => exact absurd ha (List.not_mem_nil a)
  | [x] =>
    have h1 : a = x := by simpa using ha
    have h2 : b = x := by simpa using hb
    rw [h1, h2]
  | x :: y :: t => simp at h

theorem findByIcao_some (i : String) (thr : Int) :
    ∀ (rows : List Sighting) (b : Sighting),
      findByIcao (some i) thr rows = some b →
      b ∈ rows ∧ b.icao24 = i ∧ thr < b.last_seen := by
  intro rows
  induction rows with
  | nil => intro b h; simp [findByIcao] at h
  | cons r rest ih =>
    intro b h
    simp only [findByIcao] at h
    by_cases hg : (some i == some r.icao24 && decide (thr < r.last_seen)) = true
    · rw [if_pos hg] at h
      have hg2 : i = r.icao24 ∧ thr < r.last_seen := by
        simpa using hg
      split at h
      · injection h with h
        subst h
        exact ⟨List.mem_cons_self _ _, hg2.1.symm, hg2.2⟩
      · rename_i b2 hf
        split at h
        · injection h with h
          obtain ⟨hm, hk, ha⟩ := ih b2 hf
          subst h
          exact ⟨List.mem_cons_of_mem _ hm, hk, ha⟩
        · injection h with h
          subst h
          exact ⟨List.mem_cons_self _ _, hg2.1.symm, hg2.2⟩
    · rw [if_neg hg] at h
      obtain ⟨hm, hk, ha⟩ := ih b h
      exact ⟨List.mem_cons_of_mem _ hm, hk, ha⟩

theorem findByIcao_none_all_stale (i : String) (thr : Int) :
    ∀ rows : List Sighting,
      findByIcao (some i) thr rows = none →
      ∀ r ∈ rows, r.icao24 = i → r.last_seen ≤ thr := by
  intro rows
  induction rows with
  | nil => intro _ r hr; exact absurd hr (List.not_mem_nil r)
  | cons r rest ih =>
    intro h s hs hk
    simp only [findByIcao] at h
    by_cases hg : (some i == some r.icao24 && decide (thr < r.last_seen)) = true
    · rw [if_pos hg] at h
      split at h
      · simp at h
      · split at h <;> simp at h
    · rw [if_neg hg] at h
      rcases List.mem_cons.mp hs with rfl | hs2
      · have hns : ¬(thr < s.last_seen) := by
          intro hc
          exact hg (by simp [hk, hc])
        omega
      · exact ih h s hs2 hk

theorem findByIcao_isSome (i : String) (thr : Int) :
    ∀ (rows : List Sighting) (e : Sighting),
      e ∈ rows → e.icao24 = i → thr < e.last_seen →
      ∃ b, findByIcao (some i) thr rows = some b := by
  intro rows
  induction rows with
  | nil => intro e he; exact absurd he (List.not_mem_nil e)
  | cons r rest ih =>
    intro e he hk ha
    simp only [findByIcao]
    by_cases hg : (some i == some r.icao24 && decide (thr < r.last_seen)) = true
    · rw [if_pos hg]
      cases hrest : findByIcao (some i) thr rest with
      | none => exact ⟨r, by simp [hrest]⟩
      | some b2 =>
        by_cases hlt : r.last_seen < b2.last_seen
        · exact ⟨b2, by simp [hrest, hlt]⟩
        · exact ⟨r, by simp [hrest, hlt]⟩
    · rw [if_neg hg]
      rcases List.mem_cons.mp he with rfl | he2
      · exact absurd (by simp [hk, ha]) hg
      · exact ih e he2 hk ha

theorem findByIcao_eq_of_unique (i : String) (now : Int) (dbst : SightingsDb)
    (hinv : atMostOneActive dbst now) (e : Sighting) (he : e ∈ dbst.rows)
    (hkey : e.icao24 = i) (hact : now - 600 < e.last_seen) :
    findByIcao (some i) (now - 600) dbst.rows = some e := by
  obtain ⟨b, hb⟩ := findByIcao_isSome i (now - 600) dbst.rows e he hkey hact
  obtain ⟨hbm, hbk, hba⟩ := findByIcao_some i (now - 600) dbst.rows b hb
  have heF : e ∈ dbst.rows.filter (activeFor i now) :=
    List.mem_filter.mpr ⟨he, by simp [activeFor, hkey, hact]⟩
  have hbF : b ∈ dbst.rows.filter (activeFor i now) :=
    List.mem_filter.mpr ⟨hbm, by simp [activeFor, hbk, hba]⟩
  rw [hb, mem_of_length_le_one (hinv i) hbF heF]

theorem applyUpdate_length (rows : List Sighting) (t : Nat) (now : Int)
    (cs : Option String) (mn mx ms la lo : Option Int) :
    (applyUpdate rows t now cs mn mx ms la lo).length = rows.length := by
  simp [applyUpdate]

theorem applyUpdate_ids (rows : List Sighting) (t : Nat) (now : Int)
    (cs : Option String) (mn mx ms la lo : Option Int) :
    (applyUpdate rows t now cs mn mx ms la lo).map (fun r => r.id) =
      rows.map (fun r => r.id) := by
  simp only [applyUpdate, List.map_map]
  apply List.map_congr_left
  intro a _
  by_cases h : a.id = t <;> simp [h]

theorem applyUpdate_mem_updated (rows : List Sighting) (e : Sighting)
    (he : e ∈ rows) (now : Int) (cs : Option String)
    (mn mx ms la lo : Option Int) :
    ∃ r ∈ applyUpdate rows e.id now cs mn mx ms la lo,
      r.id = e.id ∧ r.icao24 = e.icao24 ∧ r.first_seen = e.first_seen ∧
      r.last_seen = now ∧ r.min_alt = mn ∧ r.max_alt = mx ∧ r.max_speed = ms ∧
      r.lat = la ∧ r.lon = lo ∧
      r.callsign = (match cs with | some s => some s | none => e.callsign) := by
  refine ⟨_, List.mem_map_of_mem _ he, ?_⟩
  simp

theorem rows_pairwise_ids {dbst : SightingsDb} (hwf : wfDb dbst) :
    dbst.rows.Pairwise (fun a b => a.id ≠ b.id) :=
  List.pairwise_map.mp hwf.2

theorem applyUpdate_preserves (dbst : SightingsDb) (now : Int) (ex : Sighting)
    (hexm : ex ∈ dbst.rows) (hexa : now - 600 < ex.last_seen)
    (hwf : wfDb dbst) (hinv : atMostOneActive dbst now)
    (cs : Option String) (mn mx ms la lo : Option Int) :
    wfDb ⟨applyUpdate dbst.rows ex.id now cs mn mx ms la lo, dbst.nextId⟩ ∧
    atMostOneActive ⟨applyUpdate dbst.rows ex.id now cs mn mx ms la lo,
      dbst.nextId⟩ now := by
  obtain ⟨hbound, hnodup⟩ := hwf
  constructor
  · constructor
    · intro r hr
      simp only [applyUpdate] at hr
      obtain ⟨r0, hr0, hfr⟩ := List.mem_map.mp hr
      have hid : r.id = r0.id := by
        rw [← hfr]
        by_cases h0 : r0.id = ex.id <;> simp [h0]
      have := hbound r0 hr0
      simp only []
      omega
    · have hids := applyUpdate_ids dbst.rows ex.id now cs mn mx ms la lo
      simp only []
      rw [hids]
      exact hnodup
  · intro j
    simp only []
    rw [← List.countP_eq_length_filter]
    simp only [applyUpdate]
    rw [List.countP_map, List.countP_eq_length_filter]
    by_cases hj : j = ex.icao24
    · subst hj
      apply length_le_one_of_pairwise _ _
        (List.Pairwise.sublist (List.filter_sublist _)
          (List.pairwise_map.mp hnodup))
      intro a ha b hb hne
      apply hne
      obtain ⟨ham, hap⟩ := List.mem_filter.mp ha
      obtain ⟨hbm, hbp⟩ := List.mem_filter.mp hb
      have hexF : ex ∈ dbst.rows.filter (activeFor ex.icao24 now) :=
        List.mem_filter.mpr ⟨hexm, by simp [activeFor, hexa]⟩
      have kA : a.id = ex.id := by
        by_cases haid : a.id = ex.id
        · exact haid
        · exfalso
          rw [Function.comp_apply, if_neg haid] at hap
          have haF : a ∈ dbst.rows.filter (activeFor ex.icao24 now) :=
            List.mem_filter.mpr ⟨ham, hap⟩
          exact haid (by
            rw [mem_of_length_le_one (hinv ex.icao24) haF hexF])
      have kB : b.id = ex.id := by
        by_cases hbid : b.id = ex.id
        · exact hbid
        · exfalso
          rw [Function.comp_apply, if_neg hbid] at hbp
          have hbF : b ∈ dbst.rows.filter (activeFor ex.icao24 now) :=
            List.mem_filter.mpr ⟨hbm, hbp⟩
          exact hbid (by
            rw [mem_of_length_le_one (hinv ex.icao24) hbF hexF])
      rw [kA, kB]
    · have step2 : List.countP (activeFor j now) dbst.rows ≤ 1 := by
        rw [List.countP_eq_length_filter]
        exact hinv j
      rw [← List.countP_eq_length_filter]
      refine le_trans (List.countP_mono_left ?_) step2
      intro x hx hpx
      by_cases hxid : x.id = ex.id
      · exfalso
        have hxe : x = ex :=
          List.inj_on_of_nodup_map hnodup hx hexm (by rw [hxid])
        rw [Function.comp_apply, if_pos hxid] at hpx
        simp only [activeFor, Bool.and_eq_true, beq_iff_eq] at hpx
        exact hj (hxe ▸ hpx.1.symm)
      · rwa [Function.comp_apply, if_neg hxid] at hpx

theorem insertRow_preserves (dbst : SightingsDb) (now : Int) (i : String)
    (nr : Sighting) (hid : nr.id = dbst.nextId) (hkey : nr.icao24 = i)
    (hwf : wfDb dbst) (hinv : atMostOneActive dbst now)
    (hstale : findByIcao (some i) (now - 600) dbst.rows = none) :
    wfDb ⟨dbst.rows ++ [nr], dbst.nextId + 1⟩ ∧
    atMostOneActive ⟨dbst.rows ++ [nr], dbst.nextId + 1⟩ now := by
  obtain ⟨hbound, hnodup⟩ := hwf
  constructor
  · constructor
    · intro r hr
      simp only [] at hr ⊢
      rcases List.mem_append.mp hr with h | h
      · have := hbound r h
        omega
      · have hrnr : r = nr := by simpa using h
        subst hrnr
        omega
    · simp only [List.map_append]
      rw [List.nodup_append]
      refine ⟨hnodup, by simp, ?_⟩
      intro a ha hb
      simp only [List.map_cons, List.map_nil, List.mem_singleton] at hb
      obtain ⟨r0, hr0, hr0id⟩ := List.mem_map.mp ha
      have := hbound r0 hr0
      omega
  · intro j
    simp only [List.filter_append, List.length_append]
    by_cases hj : j = i
    · subst hj
      have h0 : dbst.rows.filter (activeFor j now) = [] := by
        rw [List.filter_eq_nil_iff]
        intro r hr hact
        simp only [activeFor, Bool.and_eq_true, beq_iff_eq,
          decide_eq_true_eq] at hact
        have := findByIcao_none_all_stale j (now - 600) dbst.rows hstale r hr
          hact.1
        omega
      rw [h0]
      have h1 : (List.filter (activeFor j now) [nr]).length ≤ 1 :=
        le_trans (List.length_filter_le _ _) (by simp)
      simp only [List.length_nil]
      omega
    · have h1 : List.filter (activeFor j now) [nr] = [] := by
        rw [List.filter_eq_nil_iff]
        intro r hr
        have hrnr : r = nr := by simpa using hr
        subst hrnr
        simp only [activeFor, Bool.and_eq_true, beq_iff_eq, decide_eq_true_eq,
          hkey, not_and]
        intro hc
        exact absurd hc.symm hj
      rw [h1]
      have := hinv j
      simp only [List.length_nil]
      omega

theorem upsertOne_preserves (now : Int) (dbst : SightingsDb) (p : PlaneInput)
    (d2 : SightingsDb) (hwf : wfDb dbst) (hinv : atMostOneActive dbst now)
    (h : upsertOne now dbst p = .ok d2) :
    wfDb d2 ∧ atMostOneActive d2 now := by
  rcases hpi : p.icao24 with _ | i
  · simp [upsertOne, hpi, findByIcao_none_param, runInsert] at h
  · rcases hf : findByIcao (some i) (now - 600) dbst.rows with _ | ex
    · simp only [upsertOne, hpi, hf, runInsert, Except.ok.injEq] at h
      subst h
      exact insertRow_preserves dbst now i _ rfl rfl ⟨hwf.1, hwf.2⟩ hinv hf
    · simp only [upsertOne, hpi, hf, Except.ok.injEq] at h
      subst h
      obtain ⟨hexm, hexk, hexa⟩ := findByIcao_some i (now - 600) dbst.rows ex hf
      exact applyUpdate_preserves dbst now ex hexm hexa hwf hinv _ _ _ _ _ _

theorem upsertLoop_preserves (now : Int) :
    ∀ (planes : List PlaneInput) (dbst d2 : SightingsDb),
      wfDb dbst → atMostOneActive dbst now →
      upsertLoop now planes dbst = .ok d2 →
      wfDb d2 ∧ atMostOneActive d2 now := by
  intro planes
  induction planes with
  | nil =>
    intro dbst d2 hwf hinv h
    simp only [upsertLoop, Except.ok.injEq] at h
    subst h
    exact ⟨hwf, hinv⟩
  | cons p rest ih =>
    intro dbst d2 hwf hinv h
    simp only [upsertLoop] at h
    cases ho : upsertOne now dbst p with
    | error e =>
      simp only [ho] at h
      exact Except.noConfusion h
    | ok dmid =>
      simp only [ho] at h
      obtain ⟨hwf2, hinv2⟩ := upsertOne_preserves now dbst p dmid hwf hinv ho
      exact ih dmid d2 hwf2 hinv2 h

theorem atMostOneActive_mono (dbst : SightingsDb) (now0 now : Int)
    (h0 : atMostOneActive dbst now0) (hle : now0 ≤ now) :
    atMostOneActive dbst now := by
  intro i
  refine le_trans (List.Sublist.length_le ?_) (h0 i)
  apply List.monotone_filter_right
  intro r hr
  simp only [activeFor, Bool.and_eq_true, beq_iff_eq, decide_eq_true_eq] at hr ⊢
  exact ⟨hr.1, by omega⟩

theorem upsertSightings_preserves (now : Int) (planes : List PlaneInput)
    (dbst : SightingsDb) (hwf : wfDb dbst) (hinv : atMostOneActive dbst now) :
    wfDb (upsertSightings now planes dbst).1 ∧
    atMostOneActive (upsertSightings now planes dbst).1 now := by
  cases h : upsertLoop now planes dbst with
  | ok d2 =>
    simp only [upsertSightings, h]
    exact upsertLoop_preserves now planes dbst d2 hwf hinv h
  | error e =>
    simp only [upsertSightings, h]
    exact ⟨hwf, hinv⟩

/-- C5 counterexample.  The claim reads a gap of exactly 600 seconds as
still within the staleness window (only a gap of more than 600 seconds is
said to start a fresh episode), so upserting at t=1000 and again at t=1600
should extend the one episode.  The code keeps an episode only while
`last_seen > now - 600` (strict), so the second upsert starts a fresh
episode and the store holds two rows. -/
theorem upsertSightings_gap_exactly_600_cex :
    (upsertSightings 1600 [samplePlane]
      (upsertSightings 1000 [samplePlane] emptySightingsDb).1).1.rows.length
      = 2 := by decide

/-- C5 (amended): for one observed aircraft, an observation arriving while
the active episode has `last_seen` strictly within 600 seconds of now
extends that episode in place (its `last_seen` becomes now, its identity
and `first_seen` survive, and no row is added); an observation arriving
when every episode of the aircraft is at least 600 seconds stale starts a
fresh episode with a new id and `first_seen = last_seen = now`; and on any
well-formed store with at most one active episode per aircraft at an
earlier clock value, an upsert batch preserves well-formedness and the
at-most-one-active invariant at the current clock value. -/
theorem upsertSightings_episode_lifecycle
    (now : Int) (p : PlaneInput) (i : String) (dbst : SightingsDb)
    (hicao : p.icao24 = some i) :
    (∀ e ∈ dbst.rows, e.icao24 = i → now - e.last_seen < 600 →
      atMostOneActive dbst now →
      (upsertSightings now [p] dbst).2 = none ∧
      (upsertSightings now [p] dbst).1.rows.length = dbst.rows.length ∧
      ∃ r ∈ (upsertSightings now [p] dbst).1.rows,
        r.id = e.id ∧ r.icao24 = i ∧ r.first_seen = e.first_seen ∧
        r.last_seen = now) ∧
    ((∀ e ∈ dbst.rows, e.icao24 = i → 600 ≤ now - e.last_seen) →
      (upsertSightings now [p] dbst).2 = none ∧
      (upsertSightings now [p] dbst).1.rows.length = dbst.rows.length + 1 ∧
      ∃ r ∈ (upsertSightings now [p] dbst).1.rows,
        r.id = dbst.nextId ∧ r.icao24 = i ∧ r.first_seen = now ∧
        r.last_seen = now) ∧
    (∀ (now0 : Int) (planes : List PlaneInput),
      wfDb dbst → atMostOneActive dbst now0 → now0 ≤ now →
      wfDb (upsertSightings now planes dbst).1 ∧
      atMostOneActive (upsertSightings now planes dbst).1 now) := by
  refine ⟨?_, ?_, ?_⟩
  · intro e he hkey hgap hinv
    have hact : now - 600 < e.last_seen := by omega
    have hfind := findByIcao_eq_of_unique i now dbst hinv e he hkey hact
    have hone : upsertOne now dbst p =
        .ok ⟨applyUpdate dbst.rows e.id now (normCallsign p.callsign)
              (mergeMin e.min_alt p.alt) (mergeMax e.max_alt p.alt)
              (mergeMax e.max_speed p.vel) p.lat p.lon, dbst.nextId⟩ := by
      simp [upsertOne, hicao, hfind]
    have hres : upsertSightings now [p] dbst =
        (⟨applyUpdate dbst.rows e.id now (normCallsign p.callsign)
            (mergeMin e.min_alt p.alt) (mergeMax e.max_alt p.alt)
            (mergeMax e.max_speed p.vel) p.lat p.lon, dbst.nextId⟩, none) := by
      simp [upsertSightings, upsertLoop, hone]
    rw [hres]
    refine ⟨rfl, applyUpdate_length _ _ _ _ _ _ _ _ _, ?_⟩
    obtain ⟨r, hrm, hid, hicao2, hfs, hls, -⟩ :=
      applyUpdate_mem_updated dbst.rows e he now (normCallsign p.callsign)
        (mergeMin e.min_alt p.alt) (mergeMax e.max_alt p.alt)
        (mergeMax e.max_speed p.vel) p.lat p.lon
    exact ⟨r, hrm, hid, by rw [hicao2, hkey], hfs, hls⟩
  · intro hstale
    have hfind : findByIcao (some i) (now - 600) dbst.rows = none := by
      cases hf : findByIcao (some i) (now - 600) dbst.rows with
      | none => rfl
      | some b =>
        obtain ⟨hbm, hbk, hba⟩ := findByIcao_some i (now - 600) dbst.rows b hf
        have := hstale b hbm hbk
        omega
    have hres : upsertSightings now [p] dbst =
        (⟨dbst.rows ++
            [{ id := dbst.nextId, icao24 := i,
               callsign := normCallsign p.callsign,
               origin_country := normCountry p.origin_country,
               first_seen := now, last_seen := now,
               min_alt := p.alt, max_alt := p.alt, max_speed := p.vel,
               lat := p.lat, lon := p.lon }], dbst.nextId + 1⟩, none) := by
      simp [upsertSightings, upsertLoop, upsertOne, hicao, hfind, runInsert]
    rw [hres]
    refine ⟨rfl, by simp, ?_⟩
    exact ⟨_, List.mem_append_right _ (List.mem_singleton_self _),
      rfl, rfl, rfl, rfl⟩
  · intro now0 planes hwf h0 hle
    exact upsertSightings_preserves now planes dbst hwf
      (atMostOneActive_mono dbst now0 now h0 hle)

/-- C5 witness: the lifecycle theorem applied to a concrete observation. -/
theorem upsertSightings_episode_lifecycle_witness :
    samplePlane.icao24 = some "abc" ∧
    ((∀ e ∈ emptySightingsDb.rows, e.icao24 = "abc" →
        500 - e.last_seen < 600 →
        atMostOneActive emptySightingsDb 500 →
        (upsertSightings 500 [samplePlane] emptySightingsDb).2 = none ∧
        (upsertSightings 500 [samplePlane] emptySightingsDb).1.rows.length =
          emptySightingsDb.rows.length ∧
        ∃ r ∈ (upsertSightings 500 [samplePlane] emptySightingsDb).1.rows,
          r.id = e.id ∧ r.icao24 = "abc" ∧ r.first_seen = e.first_seen ∧
          r.last_seen = 500) ∧
     ((∀ e ∈ emptySightingsDb.rows, e.icao24 = "abc" →
        600 ≤ 500 - e.last_seen) →
        (upsertSightings 500 [samplePlane] emptySightingsDb).2 = none ∧
        (upsertSightings 500 [samplePlane] emptySightingsDb).1.rows.length =
          emptySightingsDb.rows.length + 1 ∧
        ∃ r ∈ (upsertSightings 500 [samplePlane] emptySightingsDb).1.rows,
          r.id = emptySightingsDb.nextId ∧ r.icao24 = "abc" ∧
          r.first_seen = 500 ∧ r.last_seen = 500) ∧
     (∀ (now0 : Int) (planes : List PlaneInput),
        wfDb emptySightingsDb → atMostOneActive emptySightingsDb now0 →
        now0 ≤ 500 →
        wfDb (upsertSightings 500 planes emptySightingsDb).1 ∧
        atMostOneActive (upsertSightings 500 planes emptySightingsDb).1 500)) :=
  ⟨rfl, upsertSightings_episode_lifecycle 500 samplePlane "abc"
    emptySightingsDb rfl⟩

/-- C6: updating the active episode found by `findByIcao` applies the
asymmetric field policy of the update path: running min/max for altitude
bounds and max speed, touched only when the observation carries the value;
unconditional overwrite of lat/lon, null included; callsign overwritten
only when the trimmed new value is non-empty. -/
theorem upsertSightings_update_aggregates
    (now : Int) (p : PlaneInput) (i : String) (dbst : SightingsDb)
    (ex : Sighting) (hicao : p.icao24 = some i)
    (hfind : findByIcao (some i) (now - 600) dbst.rows = some ex) :
    (upsertSightings now [p] dbst).2 = none ∧
    (upsertSightings now [p] dbst).1.rows.length = dbst.rows.length ∧
    ∃ r ∈ (upsertSightings now [p] dbst).1.rows,
      r.id = ex.id ∧ r.last_seen = now ∧ r.first_seen = ex.first_seen ∧
      (p.alt = none → r.min_alt = ex.min_alt ∧ r.max_alt = ex.max_alt) ∧
      (∀ a : Int, p.alt = some a →
        r.min_alt =
          some (match ex.min_alt with | some m => min m a | none => a) ∧
        r.max_alt =
          some (match ex.max_alt with | some m => max m a | none => a)) ∧
      (p.vel = none → r.max_speed = ex.max_speed) ∧
      (∀ v : Int, p.vel = some v →
        r.max_speed =
          some (match ex.max_speed with | some m => max m v | none => v)) ∧
      r.lat = p.lat ∧ r.lon = p.lon ∧
      (normCallsign p.callsign = none → r.callsign = ex.callsign) ∧
      (∀ s : String, normCallsign p.callsign = some s →
        r.callsign = some s) := by
  obtain ⟨hexm, hexk, hexa⟩ := findByIcao_some i (now - 600) dbst.rows ex hfind
  have hres : upsertSightings now [p] dbst =
      (⟨applyUpdate dbst.rows ex.id now (normCallsign p.callsign)
          (mergeMin ex.min_alt p.alt) (mergeMax ex.max_alt p.alt)
          (mergeMax ex.max_speed p.vel) p.lat p.lon, dbst.nextId⟩, none) := by
    simp [upsertSightings, upsertLoop, upsertOne, hicao, hfind]
  rw [hres]
  refine ⟨rfl, applyUpdate_length _ _ _ _ _ _ _ _ _, ?_⟩
  obtain ⟨r, hrm, hid, hicao2, hfs, hls, hmn, hmx, hms, hla, hlo, hcs⟩ :=
    applyUpdate_mem_updated dbst.rows ex hexm now (normCallsign p.callsign)
      (mergeMin ex.min_alt p.alt) (mergeMax ex.max_alt p.alt)
      (mergeMax ex.max_speed p.vel) p.lat p.lon
  refine ⟨r, hrm, hid, hls, hfs, ?_, ?_, ?_, ?_, hla, hlo, ?_, ?_⟩
  · intro hnone
    rw [hmn, hnone, hmx, hnone]
    exact ⟨rfl, rfl⟩
  · intro a ha
    rw [hmn, ha, hmx, ha]
    exact ⟨rfl, rfl⟩
  · intro hnone
    rw [hms, hnone]
    rfl
  · intro v hv
    rw [hms, hv]
    rfl
  · intro hnone
    rw [hcs, hnone]
  · intro s hs
    rw [hcs, hs]

/-- C6 witness: the theorem applied to a one-episode store and an
observation carrying altitude 500, speed 50 and callsign `" UA1 "`. -/
theorem upsertSightings_update_aggregates_witness :
    samplePlane2.icao24 = some "abc" ∧
    findByIcao (some "abc") (1200 - 600) sampleDb1.rows = some sampleEpisode ∧
    ((upsertSightings 1200 [samplePlane2] sampleDb1).2 = none ∧
     (upsertSightings 1200 [samplePlane2] sampleDb1).1.rows.length =
       sampleDb1.rows.length ∧
     ∃ r ∈ (upsertSightings 1200 [samplePlane2] sampleDb1).1.rows,
       r.id = sampleEpisode.id ∧ r.last_seen = 1200 ∧
       r.first_seen = sampleEpisode.first_seen ∧
       (samplePlane2.alt = none → r.min_alt = sampleEpisode.min_alt ∧
         r.max_alt = sampleEpisode.max_alt) ∧
       (∀ a : Int, samplePlane2.alt = some a →
         r.min_alt = some (match sampleEpisode.min_alt with
           | some m => min m a | none => a) ∧
         r.max_alt = some (match sampleEpisode.max_alt with
           | some m => max m a | none => a)) ∧
       (samplePlane2.vel = none → r.max_speed = sampleEpisode.max_speed) ∧
       (∀ v : Int, samplePlane2.vel = some v →
         r.max_speed = some (match sampleEpisode.max_speed with
           | some m => max m v | none => v)) ∧
       r.lat = samplePlane2.lat ∧ r.lon = samplePlane2.lon ∧
       (normCallsign samplePlane2.callsign = none →
         r.callsign = sampleEpisode.callsign) ∧
       (∀ s : String, normCallsign samplePlane2.callsign = some s →
         r.callsign = some s)) :=
  ⟨rfl, by decide,
   upsertSightings_update_aggregates 1200 samplePlane2 "abc" sampleDb1
     sampleEpisode rfl (by decide)⟩

theorem mergePair_inv (o1 o2 : Option Int)
    (h : ∀ m M : Int, o1 = some m → o2 = some M → m ≤ M) (v : Option Int) :
    ∀ m M : Int, mergeMin o1 v = some m → mergeMax o2 v = some M → m ≤ M := by
  intro m M hm hM
  cases v with
  | none =>
    simp only [mergeMin, mergeMax] at hm hM
    exact h m M hm hM
  | some a =>
    cases o1 with
    | none =>
      cases o2 with
      | none =>
        simp only [mergeMin, mergeMax, Option.some.injEq] at hm hM
        omega
      | some M0 =>
        simp only [mergeMin, mergeMax, Option.some.injEq] at hm hM
        subst hm
        subst hM
        exact le_max_right M0 a
    | some m0 =>
      cases o2 with
      | none =>
        simp only [mergeMin, mergeMax, Option.some.injEq] at hm hM
        subst hm
        subst hM
        exact min_le_right m0 a
      | some M0 =>
        simp only [mergeMin, mergeMax, Option.some.injEq] at hm hM
        subst hm
        subst hM
        exact le_trans (min_le_right m0 a) (le_max_right M0 a)

theorem upsertOne_altInv (now : Int) (dbst : SightingsDb) (p : PlaneInput)
    (d2 : SightingsDb) (hinv : ∀ r ∈ dbst.rows, altInv r)
    (h : upsertOne now dbst p = .ok d2) :
    ∀ r ∈ d2.rows, altInv r := by
  rcases hpi : p.icao24 with _ | i
  · simp [upsertOne, hpi, findByIcao_none_param, runInsert] at h
  · rcases hf : findByIcao (some i) (now - 600) dbst.rows with _ | ex
    · simp only [upsertOne, hpi, hf, runInsert, Except.ok.injEq] at h
      subst h
      intro r hr
      simp only [] at hr
      rcases List.mem_append.mp hr with h2 | h2
      · exact hinv r h2
      · rw [List.mem_singleton] at h2
        subst h2
        intro m M hm hM
        have hm2 : p.alt = some m := hm
        have hM2 : p.alt = some M := hM
        rw [hm2] at hM2
        injection hM2 with hh
        omega
    · simp only [upsertOne, hpi, hf, Except.ok.injEq] at h
      subst h
      obtain ⟨hexm, -, -⟩ := findByIcao_some i (now - 600) dbst.rows ex hf
      intro r hr
      simp only [applyUpdate] at hr
      obtain ⟨r0, hr0, hfr⟩ := List.mem_map.mp hr
      by_cases h0 : r0.id = ex.id
      · rw [if_pos h0] at hfr
        subst hfr
        intro m M hm hM
        exact mergePair_inv ex.min_alt ex.max_alt (hinv ex hexm) p.alt m M hm hM
      · rw [if_neg h0] at hfr
        subst hfr
        exact hinv r0 hr0

theorem upsertLoop_altInv (now : Int) :
    ∀ (planes : List PlaneInput) (dbst d2 : SightingsDb),
      (∀ r ∈ dbst.rows, altInv r) →
      upsertLoop now planes dbst = .ok d2 →
      ∀ r ∈ d2.rows, altInv r := by
  intro planes
  induction planes with
  | nil =>
    intro dbst d2 hinv h
    simp only [upsertLoop, Except.ok.injEq] at h
    subst h
    exact hinv
  | cons p rest ih =>
    intro dbst d2 hinv h
    simp only [upsertLoop] at h
    cases ho : upsertOne now dbst p with
    | error e =>
      simp only [ho] at h
      exact Except.noConfusion h
    | ok dmid =>
      simp only [ho] at h
      exact ih dmid d2 (upsertOne_altInv now dbst p dmid hinv ho) h

/-- C9: every episode row keeps `min_alt ≤ max_alt` whenever both bounds
are non-null — an upsert batch preserves the invariant over every row of
the store, and the insert path establishes it by creating the row with
`min_alt = max_alt =` the observed altitude. -/
theorem upsertSightings_alt_bounds
    (now : Int) (planes : List PlaneInput) (dbst : SightingsDb)
    (hinv : ∀ r ∈ dbst.rows, altInv r) :
    (∀ r ∈ (upsertSightings now planes dbst).1.rows, altInv r) ∧
    (∀ (p : PlaneInput) (i : String), p.icao24 = some i →
      findByIcao (some i) (now - 600) dbst.rows = none →
      ∃ r ∈ (upsertSightings now [p] dbst).1.rows,
        r.min_alt = p.alt ∧ r.max_alt = p.alt ∧ r.first_seen = now) := by
  constructor
  · cases h : upsertLoop now planes dbst with
    | ok d2 =>
      simp only [upsertSightings, h]
      exact upsertLoop_altInv now planes dbst d2 hinv h
    | error e =>
      simp only [upsertSightings, h]
      exact hinv
  · intro p i hpi hf
    have hres : upsertSightings now [p] dbst =
        (⟨dbst.rows ++
            [{ id := dbst.nextId, icao24 := i,
               callsign := normCallsign p.callsign,
               origin_country := normCountry p.origin_country,
               first_seen := now, last_seen := now,
               min_alt := p.alt, max_alt := p.alt, max_speed := p.vel,
               lat := p.lat, lon := p.lon }], dbst.nextId + 1⟩, none) := by
      simp [upsertSightings, upsertLoop, upsertOne, hpi, hf, runInsert]
    rw [hres]
    exact ⟨_, List.mem_append_right _ (List.mem_singleton_self _),
      rfl, rfl, rfl⟩

/-- C9 witness: the invariant theorem applied to the empty store and a
one-record batch. -/
theorem upsertSightings_alt_bounds_witness :
    (∀ r ∈ emptySightingsDb.rows, altInv r) ∧
    ((∀ r ∈ (upsertSightings 100 [samplePlane] emptySightingsDb).1.rows,
        altInv r) ∧
     (∀ (p : PlaneInput) (i : String), p.icao24 = some i →
        findByIcao (some i) (100 - 600) emptySightingsDb.rows = none →
        ∃ r ∈ (upsertSightings 100 [p] emptySightingsDb).1.rows,
          r.min_alt = p.alt ∧ r.max_alt = p.alt ∧ r.first_seen = 100)) :=
  ⟨by simp [emptySightingsDb],
   upsertSightings_alt_bounds 100 [samplePlane] emptySightingsDb
     (by simp [emptySightingsDb])⟩

/-! ## Claims C3 and C4 — source client failures and the merge/dedup step -/

/-- C3 counterexample.  The claim says `fetchTile` never raises and returns
an empty list on any failure, network errors and timeouts included.  The
code only guards the non-success HTTP status: a rejected `fetch` (network
error or the 15s abort timeout) propagates out of `fetchTile` as a
rejection of its returned promise, not as `[]`. -/
theorem fetchTile_netError_cex :
    fetchTile (.netError "timeout") = .error "timeout" ∧
    (fetchTile (.netError "timeout")).isOk = false := ⟨rfl, rfl⟩

/-- C3 (amended): `fetchTile` returns `[]` (it does not raise) on a
non-success HTTP status, but a transport failure (network error or
timeout) propagates to the caller as a rejection; the caller `pollOnce`
absorbs the rejection through `Promise.allSettled`, so a failed tile
contributes exactly the observations an empty tile would — the cycle batch
is the same as if the tile had returned `[]`. -/
theorem fetchTile_failure_contract :
    (∀ (status : Nat) (json : Except String (Option (List RawAc))),
      fetchTile (.response false status json) = .ok []) ∧
    (∀ msg : String, fetchTile (.netError msg) = .error msg) ∧
    (∀ (pre post : List (Except String (List RawAc))) (msg : String) (ts : Int),
      cycleBatch (pre ++ .error msg :: post) ts =
        cycleBatch (pre ++ .ok [] :: post) ts) := by
  refine ⟨fun _ _ => rfl, fun _ => rfl, ?_⟩
  intro pre post msg ts
  unfold cycleBatch
  congr 1
  unfold mergeResults
  rw [List.foldl_append, List.foldl_append]
  rfl

theorem foldl_addAc_eq (acs : List RawAc) :
    ∀ seen : List (String × RawAc),
      acs.foldl addAc seen =
        ((acs.filter validAc).map (fun ac => (keyOf ac, ac))).foldl addPair
          seen := by
  induction acs with
  | nil => intro seen; rfl
  | cons a t ih =>
    intro seen
    simp only [List.foldl_cons]
    cases hv : validAc a with
    | false =>
      have h1 : addAc seen a = seen := by simp [addAc, hv]
      rw [h1, List.filter_cons_of_neg (by simp [hv]), ih]
    | true =>
      have h1 : addAc seen a = addPair seen (keyOf a, a) := by
        simp [addAc, addPair, hv]
      rw [h1, List.filter_cons_of_pos hv]
      simp only [List.map_cons, List.foldl_cons]
      exact ih _

theorem mergeResults_eq_foldl (results : List (Except String (List RawAc))) :
    mergeResults results = (keyedValid results).foldl addPair [] := by
  suffices h : ∀ (rs : List (Except String (List RawAc)))
      (seen : List (String × RawAc)),
      rs.foldl
        (fun seen r =>
          match r with
          | .error _ => seen
          | .ok acs => acs.foldl addAc seen)
        seen = (keyedValid rs).foldl addPair seen by
    exact h results []
  intro rs
  induction rs with
  | nil => intro seen; rfl
  | cons r rest ih =>
    intro seen
    simp only [List.foldl_cons]
    cases r with
    | error e =>
      have hkv : keyedValid (Except.error e :: rest) = keyedValid rest := by
        simp [keyedValid, tileObservations]
      rw [hkv]
      exact ih seen
    | ok acs =>
      have hkv : keyedValid (Except.ok acs :: rest) =
          (acs.filter validAc).map (fun ac => (keyOf ac, ac)) ++
            keyedValid rest := by
        simp [keyedValid, tileObservations, List.filter_append]
      rw [hkv, List.foldl_append]
      refine (ih _).trans ?_
      congr 1
      exact foldl_addAc_eq acs seen

theorem foldl_addPair_mem :
    ∀ (l : List (String × RawAc)) (seen : List (String × RawAc)) (k : String)
      (a : RawAc),
      ((k, a) ∈ l.foldl addPair seen ↔
        (k, a) ∈ seen ∨
        ((∀ kv ∈ seen, kv.1 ≠ k) ∧
          l.find? (fun kv => kv.1 == k) = some (k, a))) := by
  intro l
  induction l with
  | nil =>
    intro seen k a
    simp [List.find?]
  | cons kv0 rest ih =>
    intro seen k a
    obtain ⟨k0, a0⟩ := kv0
    simp only [List.foldl_cons]
    by_cases hseen : (seen.any (fun x => x.1 == k0)) = true
    · have hstep : addPair seen (k0, a0) = seen := by simp [addPair, hseen]
      rw [hstep, ih]
      by_cases hk : k0 = k
      · subst hk
        rw [List.find?_cons_of_pos _ (by simp)]
        obtain ⟨x, hx, hxk⟩ := List.any_eq_true.mp hseen
        have hxk2 : x.1 = k0 := by simpa using hxk
        constructor
        · rintro (h | ⟨hno, -⟩)
          · exact Or.inl h
          · exact absurd hxk2 (hno x hx)
        · rintro (h | ⟨hno, -⟩)
          · exact Or.inl h
          · exact absurd hxk2 (hno x hx)
      · rw [List.find?_cons_of_neg _ (by simp [hk])]
    · have hstep : addPair seen (k0, a0) = seen ++ [(k0, a0)] := by
        simp [addPair, hseen]
      rw [hstep, ih]
      have hnoseen : ∀ kv ∈ seen, kv.1 ≠ k0 := by
        intro kv hkv he
        exact hseen (List.any_eq_true.mpr ⟨kv, hkv, by simp [he]⟩)
      by_cases hk : k0 = k
      · subst hk
        rw [List.find?_cons_of_pos _ (by simp)]
        constructor
        · rintro (h | ⟨hno, -⟩)
          · rcases List.mem_append.mp h with h2 | h2
            · exact Or.inl h2
            · have h3 : (k0, a) = (k0, a0) := by simpa using h2
              exact Or.inr ⟨hnoseen, by rw [(Prod.mk.injEq _ _ _ _).mp h3 |>.2]⟩
          · exact absurd rfl
              (hno (k0, a0) (List.mem_append_right _ (List.mem_singleton_self _)))
        · rintro (h | ⟨-, heq⟩)
          · exact Or.inl (List.mem_append_left _ h)
          · have h3 : a0 = a := by
              have := (Option.some.injEq _ _).mp heq
              exact ((Prod.mk.injEq _ _ _ _).mp this).2
            subst h3
            exact Or.inl
              (List.mem_append_right _ (List.mem_singleton_self _))
      · rw [List.find?_cons_of_neg _ (by simp [hk])]
        constructor
        · rintro (h | ⟨hno, hfind⟩)
          · rcases List.mem_append.mp h with h2 | h2
            · exact Or.inl h2
            · have h3 : (k, a) = (k0, a0) := by simpa using h2
              exact absurd (((Prod.mk.injEq _ _ _ _).mp h3).1).symm hk
          · exact Or.inr
              ⟨fun kv hkv => hno kv (List.mem_append_left _ hkv), hfind⟩
        · rintro (h | ⟨hno, hfind⟩)
          · exact Or.inl (List.mem_append_left _ h)
          · refine Or.inr ⟨?_, hfind⟩
            intro kv hkv
            rcases List.mem_append.mp hkv with h2 | h2
            · exact hno kv h2
            · have h3 : kv = (k0, a0) := by simpa using h2
              subst h3
              simpa using hk

theorem foldl_addPair_keys_nodup :
    ∀ (l : List (String × RawAc)) (seen : List (String × RawAc)),
      (seen.map Prod.fst).Nodup → ((l.foldl addPair seen).map Prod.fst).Nodup := by
  intro l
  induction l with
  | nil => intro seen h; exact h
  | cons kv rest ih =>
    intro seen h
    simp only [List.foldl_cons]
    apply ih
    by_cases hs : (seen.any (fun x => x.1 == kv.1)) = true
    · simpa [addPair, hs] using h
    · rw [show addPair seen kv = seen ++ [kv] by simp [addPair, hs]]
      simp only [List.map_append]
      rw [List.nodup_append]
      refine ⟨h, by simp, ?_⟩
      intro b hb hb2
      simp only [List.map_cons, List.map_nil, List.mem_singleton] at hb2
      subst hb2
      obtain ⟨x, hx, hxk⟩ := List.mem_map.mp hb
      exact hs (List.any_eq_true.mpr ⟨x, hx, by simp [hxk]⟩)

/-- C4: the merged batch of one cycle carries pairwise-distinct aircraft
identities; a pair `(k, ac)` survives the merge exactly when `ac` is the
first valid observation with lower-cased identity `k` in the flattened
fulfilled-tile sequence, taken in configured tile order (observations with
a falsy identity or missing latitude/longitude are filtered out of that
sequence); and the batch is the image of the merged pairs under the
position-row conversion stamped with the cycle timestamp. -/
theorem pollOnce_dedup_first_occurrence
    (results : List (Except String (List RawAc))) (ts : Int) :
    ((cycleBatch results ts).map (fun r => r.icao24)).Nodup ∧
    (∀ (k : String) (ac : RawAc),
      ((k, ac) ∈ mergeResults results ↔
        (keyedValid results).find? (fun kv => kv.1 == k) = some (k, ac))) ∧
    cycleBatch results ts =
      (mergeResults results).map (fun kv => toPositionRow ts kv.1 kv.2) := by
  have hmr := mergeResults_eq_foldl results
  refine ⟨?_, ?_, rfl⟩
  · have hmap : (cycleBatch results ts).map (fun r => r.icao24) =
        (mergeResults results).map Prod.fst := by
      simp only [cycleBatch, List.map_map]
      apply List.map_congr_left
      intro kv _
      rfl
    rw [hmap, hmr]
    exact foldl_addPair_keys_nodup _ [] (by simp)
  · intro k ac
    rw [hmr, foldl_addPair_mem]
    simp

/-! ## Claims C7 and C10 — the re-entrancy guard -/

theorem runTrace_flag_running (evs : List PollEv) :
    ∀ s : TraceState,
      s.running = (if s.pending.isSome then 1 else 0) →
      (runTrace s evs).running =
        (if (runTrace s evs).pending.isSome then 1 else 0) := by
  induction evs with
  | nil => intro s h; exact h
  | cons ev rest ih =>
    intro s h
    show (runTrace (stepEv s ev) rest).running = _
    apply ih
    cases ev with
    | invoke inp =>
      cases hp : s.pending with
      | some c => simpa [stepEv, hp] using h
      | none =>
        rw [hp] at h
        simp only [Option.isSome_none] at h
        simp [stepEv, hp, h]
    | finish =>
      cases hp : s.pending with
      | none => simpa [stepEv, hp] using h
      | some inp =>
        rw [hp] at h
        simp only [Option.isSome_some, if_true] at h
        simp [stepEv, hp, h]

/-- C7: the in-flight guard.  An invocation of `pollOnce` that arrives
while a cycle is pending only increments the skip log: the store, the
pending cycle and the running-cycle count are untouched — no fetch is
issued and no store write happens for that invocation.  Moreover, along
every event trace from the initial state, at most one cycle is ever
running, which is the mutual exclusion the single `isPolling` flag is
meant to provide. -/
theorem pollOnce_reentrancy_guard :
    (∀ (s : TraceState) (inp : CycleInput), s.pending.isSome = true →
      stepEv s (.invoke inp) = { s with skips := s.skips + 1 }) ∧
    (∀ evs : List PollEv, (runTrace initTraceState evs).running ≤ 1) := by
  constructor
  · intro s inp h
    cases hp : s.pending with
    | none => rw [hp] at h; simp at h
    | some c => simp [stepEv, hp]
  · intro evs
    have := runTrace_flag_running evs initTraceState (by simp [initTraceState])
    rw [this]
    split <;> omega

/-- C7 witness: the guard theorem applied to a state with a pending
cycle. -/
theorem pollOnce_reentrancy_guard_witness :
    (TraceState.mk (some ⟨[], 0, none, none⟩) [] 0 1).pending.isSome = true ∧
    stepEv (TraceState.mk (some ⟨[], 0, none, none⟩) [] 0 1)
        (.invoke ⟨[], 7, none, none⟩) =
      { TraceState.mk (some ⟨[], 0, none, none⟩) [] 0 1 with skips := 0 + 1 } :=
  ⟨rfl,
   pollOnce_reentrancy_guard.1 (TraceState.mk (some ⟨[], 0, none, none⟩) [] 0 1)
     ⟨[], 7, none, none⟩ rfl⟩

/-- C10: the `finally` of `pollOnce` lowers the in-flight flag on every
path, faulty cycles included — `inp` ranges over cycles whose insert or
prune throws and whose tile fetches reject.  A non-skipped invocation
always returns with the flag down, and the invocation after it is never
skipped (the skip counter does not move), so one failed cycle cannot leave
the guard stuck. -/
theorem pollOnce_clears_flag
    (s : PollState) (inp : CycleInput) (h : s.isPolling = false) :
    (pollOnce s inp).isPolling = false ∧
    (∀ inp2 : CycleInput,
      (pollOnce (pollOnce s inp) inp2).skips = s.skips) := by
  have h1 : pollOnce s inp =
      { isPolling := false, db := (runBody inp s.db).1, skips := s.skips } := by
    simp [pollOnce, h]
  refine ⟨by rw [h1], ?_⟩
  intro inp2
  rw [h1]
  simp [pollOnce]

/-- C10 witness: a cycle whose insert throws on a non-empty batch still
returns with the flag down and does not cause the next cycle to skip. -/
theorem pollOnce_clears_flag_witness :
    (PollState.mk false [] 0).isPolling = false ∧
    ((pollOnce (PollState.mk false [] 0)
        ⟨[.ok [sampleAc]], 100, some "disk IO error", none⟩).isPolling
        = false ∧
     (∀ inp2 : CycleInput,
       (pollOnce (pollOnce (PollState.mk false [] 0)
          ⟨[.ok [sampleAc]], 100, some "disk IO error", none⟩) inp2).skips
         = 0)) :=
  ⟨rfl,
   pollOnce_clears_flag (PollState.mk false [] 0)
     ⟨[.ok [sampleAc]], 100, some "disk IO error", none⟩ rfl⟩
